import Mathlib

/-!
Verification of two small C++ console programs: a Blackjack card game
(`Projects/Card_game/main.cpp`) and a potion shop (`Projects/Potion_shop/main.cpp`).

The Blackjack embedding follows the source closely:
* `Card`, `Rank`, `Suits`, `Card.val` mirror the `Card` struct and its value table.
* `Deck` mirrors the `Deck` class: a list of cards plus the `m_nextCardIndex`
  cursor.  `Deck.dealCard` returns `none` exactly when the C++ assertion
  `m_nextCardIndex != 52` would fire.  `Deck.shuffle` is parameterised by the
  permutation drawn from the random generator.
* The game functions (`playerturn`, `dealerTurn`, `playBlackJack`) consume the
  shuffled card sequence as a list: dealing from the deck cursor corresponds to
  taking the head of the list of not-yet-dealt cards, and a deal attempted on an
  exhausted deck (the assertion firing) is modelled by `none` propagating out.
* The interactive hit/stand input (`playerWantHit`) is modelled by a stream of
  already-validated decisions `ds : Nat → Bool`; index `k` counts solicitations.
  `playerturnAux` additionally records the trace of scores at which the decision
  stream is consulted, so that properties of when input is solicited can be
  stated.
-/

namespace CardGame

inductive Rank
  | rank_ace
  | rank_2
  | rank_3
  | rank_4
  | rank_5
  | rank_6
  | rank_7
  | rank_8
  | rank_9
  | rank_10
  | rank_jack
  | rank_queen
  | rank_king
  deriving DecidableEq

inductive Suits
  | suits_clubs
  | suits_diamonds
  | suits_hearts
  | suits_spades
  deriving DecidableEq

structure Card where
  rankCard : Rank
  suitCard : Suits
  deriving DecidableEq

/-- The value table `rankVal {11,2,3,4,5,6,7,8,9,10,10,10,10}` indexed by rank. -/
def Card.val (c : Card) : Nat :=
  match c.rankCard with
  | .rank_ace => 11
  | .rank_2 => 2
  | .rank_3 => 3
  | .rank_4 => 4
  | .rank_5 => 5
  | .rank_6 => 6
  | .rank_7 => 7
  | .rank_8 => 8
  | .rank_9 => 9
  | .rank_10 => 10
  | .rank_jack => 10
  | .rank_queen => 10
  | .rank_king => 10

/-- `Card::allRank`. -/
def allRank : List Rank :=
  [.rank_ace, .rank_2, .rank_3, .rank_4, .rank_5, .rank_6, .rank_7, .rank_8,
   .rank_9, .rank_10, .rank_jack, .rank_queen, .rank_king]

/-- `Card::allSuits`. -/
def allSuits : List Suits :=
  [.suits_clubs, .suits_diamonds, .suits_hearts, .suits_spades]

structure Deck where
  m_cards : List Card
  m_nextCardIndex : Nat
  deriving DecidableEq

/-- The `Deck()` constructor: for each suit, for each rank, append the card. -/
def newDeck : Deck :=
  ⟨allSuits.flatMap (fun s => allRank.map (fun r => ⟨r, s⟩)), 0⟩

/-- `Deck::dealCard`: `assert(m_nextCardIndex != 52); return m_cards[m_nextCardIndex++];`.
The assertion firing is modelled by `none`. -/
def Deck.dealCard (d : Deck) : Option (Card × Deck) :=
  if d.m_nextCardIndex = 52 then none
  else some (d.m_cards.getD d.m_nextCardIndex ⟨.rank_ace, .suits_clubs⟩,
             ⟨d.m_cards, d.m_nextCardIndex + 1⟩)

/-- `Deck::shuffle`: `std::shuffle` applies a permutation of the 52 positions
drawn from the random generator (here an explicit parameter), and the cursor is
reset to 0. -/
def Deck.shuffle (d : Deck) (σ : Equiv.Perm (Fin 52)) : Deck :=
  ⟨List.ofFn (fun i : Fin 52 => d.m_cards.getD (σ i) ⟨.rank_ace, .suits_clubs⟩), 0⟩

/-- `n` successive `dealCard` calls, collecting the dealt cards. -/
def dealN : Deck → Nat → Option (List Card × Deck)
  | d, 0 => some ([], d)
  | d, n + 1 =>
    match d.dealCard with
    | none => none
    | some (c, d') =>
      match dealN d' n with
      | none => none
      | some (cs, d'') => some (c :: cs, d'')

namespace Settings

/-- `Settings::bustLimit`. -/
def bustLimit : Nat := 21

/-- `Settings::dealerLimit`. -/
def dealerLimit : Nat := 17

end Settings

structure Player where
  score : Nat
  aceCount : Nat
  deriving DecidableEq

/-- The ace-correction loop `while (score > limit && aceCount > 0) { score -= 10; aceCount--; }`,
written by recursion on `aceCount`.  The player's turn instantiates `limit` with
`Settings.bustLimit`; the dealer's turn instantiates it with `Settings.dealerLimit`
(both loops in the source compare against the constant they name). -/
def aceCorrect (limit : Nat) : Nat → Nat → Nat × Nat
  | s, 0 => (s, 0)
  | s, a + 1 => if limit < s then aceCorrect limit (s - 10) a else (s, a + 1)

/-- `if (card.val() == 11) aceCount++;` -/
def aceIncr (a : Nat) (c : Card) : Nat :=
  if c.val = 11 then a + 1 else a

/-- One dealt card applied to a `(score, aceCount)` state: add the card's value,
increment the ace count on an ace, then run the correction loop against `limit`. -/
def hitUpdate (limit : Nat) (s a : Nat) (c : Card) : Nat × Nat :=
  aceCorrect limit (s + c.val) (aceIncr a c)

/-- The "deal card into hand" operation of the spec data model (the body of the
player-turn loop, correction limit `Settings.bustLimit`). -/
def dealIntoHand (p : Player) (c : Card) : Player :=
  ⟨(hitUpdate Settings.bustLimit p.score p.aceCount c).1,
   (hitUpdate Settings.bustLimit p.score p.aceCount c).2⟩

/-- The dealer loop of `dealerTurn`: hit while `score < Settings::dealerLimit`;
the per-card update compares against `Settings::dealerLimit` in the correction
loop, exactly as in the source. -/
def dealerTurnAux : List Card → Nat → Nat → Option (Nat × Nat × List Card)
  | [], s, a => if s < Settings.dealerLimit then none else some (s, a, [])
  | c :: rest, s, a =>
    if s < Settings.dealerLimit then
      dealerTurnAux rest (hitUpdate Settings.dealerLimit s a c).1
        (hitUpdate Settings.dealerLimit s a c).2
    else some (s, a, c :: rest)

/-- `dealerTurn`: runs the dealer loop, then reports a bust when
`dealer.score > Settings::dealerLimit`. -/
def dealerTurn (deck : List Card) (d : Player) : Option (Bool × Player × List Card) :=
  match dealerTurnAux deck d.score d.aceCount with
  | none => none
  | some (s, a, rest) => some (decide (Settings.dealerLimit < s), ⟨s, a⟩, rest)

/-- The player loop of `playerturn`: `while (score < bustLimit && playerWantHit())`.
The decision stream is consulted only after the `score < bustLimit` test passes
(short-circuit `&&`); the second component of the result records the score at
each consultation of the decision stream. -/
def playerturnAux (ds : Nat → Bool) :
    List Card → Nat → Nat → Nat → Option (Nat × Nat × List Card) × List Nat
  | [], k, s, a =>
    if s < Settings.bustLimit then
      if ds k then (none, [s]) else (some (s, a, []), [s])
    else (some (s, a, []), [])
  | c :: rest, k, s, a =>
    if s < Settings.bustLimit then
      if ds k then
        ((playerturnAux ds rest (k + 1) (hitUpdate Settings.bustLimit s a c).1
            (hitUpdate Settings.bustLimit s a c).2).1,
         s :: (playerturnAux ds rest (k + 1) (hitUpdate Settings.bustLimit s a c).1
            (hitUpdate Settings.bustLimit s a c).2).2)
      else (some (s, a, c :: rest), [s])
    else (some (s, a, c :: rest), [])

/-- `playerturn`: runs the player loop, then reports a bust when
`player.score > Settings::bustLimit`. -/
def playerturn (ds : Nat → Bool) (deck : List Card) (k : Nat) (p : Player) :
    Option (Bool × Player × List Card) :=
  match (playerturnAux ds deck k p.score p.aceCount).1 with
  | none => none
  | some (s, a, rest) => some (decide (Settings.bustLimit < s), ⟨s, a⟩, rest)

inductive Result
  | Tie
  | Win
  | Lose
  deriving DecidableEq

/-- The dealer's initial deal: `dealer.score = initialCard_Dealer.val();`
(the default-initialised `aceCount` stays 0 and no correction runs). -/
def dealerInit (c : Card) : Player := ⟨c.val, 0⟩

/-- The player's initial deal:
`player.score = initialCard_Player.first.val() + initialCard_Player.second.val();`
(the default-initialised `aceCount` stays 0 and no correction runs). -/
def playerInit (c1 c2 : Card) : Player := ⟨c1.val + c2.val, 0⟩

/-- `playBlackJack`, on the shuffled card sequence `deck` and decision stream `ds`:
deal one card to the dealer and two to the player, run the player's turn
(bust short-circuits to `Lose`), run the dealer's turn (its bust flag
short-circuits to `Win`), then compare scores. -/
def playBlackJack (deck : List Card) (ds : Nat → Bool) : Option Result :=
  match deck with
  | c0 :: c1 :: c2 :: rest =>
    match playerturn ds rest 0 (playerInit c1 c2) with
    | none => none
    | some (pbust, p, deck1) =>
      if pbust then some .Lose
      else
        match dealerTurn deck1 (dealerInit c0) with
        | none => none
        | some (dbust, d, _) =>
          if dbust then some .Win
          else if p.score = d.score then some .Tie
          else if d.score < p.score then some .Win
          else some .Lose
  | _ => none

end CardGame

namespace PotionShop

/-- `Potion::Type` (the four real potions; `maxType` is the sentinel used only
as array bound and quit marker, never a purchasable potion). -/
inductive PType
  | healing
  | mana
  | speed
  | invisibility
  deriving DecidableEq

/-- `Potion::costPotion {20,30,12,50}` indexed by type. -/
def costPotion : PType → Int
  | .healing => 20
  | .mana => 30
  | .speed => 12
  | .invisibility => 50

/-- The `Player` of the potion shop: the inventory array indexed by potion type
and the gold amount (the name string plays no role in the purchase logic). -/
structure Player where
  m_inventory : PType → Nat
  m_gold : Int

/-- `Player::buy`: refuse when `m_gold < costPotion[type]`; otherwise subtract
the cost and increment that potion's inventory slot. -/
def Player.buy (p : Player) (t : PType) : Bool × Player :=
  if p.m_gold < costPotion t then (false, p)
  else (true, ⟨fun t' => if t' = t then p.m_inventory t' + 1 else p.m_inventory t',
               p.m_gold - costPotion t⟩)

end PotionShop

section BlackjackTheorems

open CardGame

/-- C9: for every one of the 52 (rank, suit) pairs, the value lookup returns 11
for an ace, the numeric face value for ranks 2 through 10, and 10 for jack,
queen and king; the result depends only on the rank, never on the suit. -/
theorem Card_val_lookup :
    (∀ s, (Card.mk .rank_ace s).val = 11) ∧
    (∀ s, (Card.mk .rank_2 s).val = 2) ∧
    (∀ s, (Card.mk .rank_3 s).val = 3) ∧
    (∀ s, (Card.mk .rank_4 s).val = 4) ∧
    (∀ s, (Card.mk .rank_5 s).val = 5) ∧
    (∀ s, (Card.mk .rank_6 s).val = 6) ∧
    (∀ s, (Card.mk .rank_7 s).val = 7) ∧
    (∀ s, (Card.mk .rank_8 s).val = 8) ∧
    (∀ s, (Card.mk .rank_9 s).val = 9) ∧
    (∀ s, (Card.mk .rank_10 s).val = 10) ∧
    (∀ s, (Card.mk .rank_jack s).val = 10) ∧
    (∀ s, (Card.mk .rank_queen s).val = 10) ∧
    (∀ s, (Card.mk .rank_king s).val = 10) ∧
    (∀ r s1 s2, (Card.mk r s1).val = (Card.mk r s2).val) :=
  ⟨fun _ => rfl, fun _ => rfl, fun _ => rfl, fun _ => rfl, fun _ => rfl,
   fun _ => rfl, fun _ => rfl, fun _ => rfl, fun _ => rfl, fun _ => rfl,
   fun _ => rfl, fun _ => rfl, fun _ => rfl, fun r _ _ => by cases r <;> rfl⟩

/-- C2: the dealer's per-card update is NOT identical to the player's.  Both add
the card's value and increment the ace count on an ace, but the dealer's
correction loop in the source runs while `score > Settings::dealerLimit` (17),
not while `score > Settings::bustLimit` (21) as the player's does.  At score 10,
ace count 0, dealt an ace: the dealer's update yields (11, 0), the player's
yields (21, 1). -/
theorem dealer_update_differs_from_player :
    hitUpdate Settings.dealerLimit 10 0 ⟨.rank_ace, .suits_clubs⟩ = (11, 0) ∧
    hitUpdate Settings.bustLimit 10 0 ⟨.rank_ace, .suits_clubs⟩ = (21, 1) ∧
    hitUpdate Settings.dealerLimit 10 0 ⟨.rank_ace, .suits_clubs⟩ ≠
      hitUpdate Settings.bustLimit 10 0 ⟨.rank_ace, .suits_clubs⟩ := by
  refine ⟨by decide, by decide, by decide⟩

/-- C1: a complete game run contradicting the claimed outcome comparison.  With
the unshuffled fresh deck (identity permutation: A♣,2♣,3♣,4♣,5♣,...) and a
player who always stands, the player's turn ends at 5 and the dealer's at 20 —
neither total exceeds `Settings.bustLimit`, so per the glossary neither
participant busts, and the claim requires the result `Lose` (5 < 20).  The code
instead treats the dealer's 20 as a bust (`score > Settings::dealerLimit`) and
returns `Win`. -/
theorem playBlackJack_dealer_20_returns_Win :
    playBlackJack newDeck.m_cards (fun _ => false) = some Result.Win ∧
    playerturn (fun _ => false) (newDeck.m_cards.drop 3) 0
        (playerInit ⟨.rank_2, .suits_clubs⟩ ⟨.rank_3, .suits_clubs⟩)
      = some (false, ⟨5, 0⟩, newDeck.m_cards.drop 3) ∧
    dealerTurn (newDeck.m_cards.drop 3) (dealerInit ⟨.rank_ace, .suits_clubs⟩)
      = some (true, ⟨20, 0⟩, newDeck.m_cards.drop 5) ∧
    5 ≤ Settings.bustLimit ∧ 20 ≤ Settings.bustLimit ∧
    some Result.Win ≠ some Result.Lose := by
  refine ⟨by decide, by decide, by decide, by decide, by decide, by decide⟩

/-- C3 counterexample: the player's two initial cards do not go through the full
deal-into-hand operation.  Two initial aces leave the player at score 22 with
ace count 0, not at the claimed score 12 with ace count 1. -/
theorem playerInit_two_aces_uncorrected :
    playerInit ⟨.rank_ace, .suits_clubs⟩ ⟨.rank_ace, .suits_hearts⟩ = ⟨22, 0⟩ ∧
    playerInit ⟨.rank_ace, .suits_clubs⟩ ⟨.rank_ace, .suits_hearts⟩ ≠ ⟨12, 1⟩ := by
  refine ⟨by decide, by decide⟩

/-- C3 (amended): each hit in the player's turn loop continues the hand from
`dealIntoHand` of the dealt card — those cards go through the full
deal-into-hand operation — but the initial deals do not: the dealer's first
card and the player's first two cards are added raw, with the ace count left 0
and no correction, whereas running the same two aces through the full
deal-into-hand operation would give score 12 and ace count 1. -/
theorem initial_deal_raw_sum :
    (∀ ds k s a c rest, s < Settings.bustLimit → ds k = true →
      (playerturnAux ds (c :: rest) k s a).1
        = (playerturnAux ds rest (k + 1) (dealIntoHand ⟨s, a⟩ c).score
            (dealIntoHand ⟨s, a⟩ c).aceCount).1) ∧
    (∀ c, dealerInit c = ⟨c.val, 0⟩) ∧
    (∀ c1 c2, playerInit c1 c2 = ⟨c1.val + c2.val, 0⟩) ∧
    (∀ c1 c2, c1.val = 11 → c2.val = 11 →
      playerInit c1 c2 = ⟨22, 0⟩ ∧
      dealIntoHand (dealIntoHand ⟨0, 0⟩ c1) c2 = ⟨12, 1⟩) := by
  refine ⟨fun ds k s a c rest hs hd => ?_, fun _ => rfl, fun _ _ => rfl,
    fun c1 c2 h1 h2 => ⟨?_, ?_⟩⟩
  · simp [playerturnAux, hs, hd, dealIntoHand]
  · simp [playerInit, h1, h2]
  · simp [dealIntoHand, hitUpdate, aceIncr, h1, h2, Settings.bustLimit, aceCorrect]

/-- Witness for `initial_deal_raw_sum`: a concrete hit at score 5 continuing
through `dealIntoHand`, and the two concrete initial aces. -/
theorem initial_deal_raw_sum_w :
    ((playerturnAux (fun _ => true) [⟨.rank_6, .suits_clubs⟩] 0 5 0).1
      = (playerturnAux (fun _ => true) [] 1
          (dealIntoHand ⟨5, 0⟩ ⟨.rank_6, .suits_clubs⟩).score
          (dealIntoHand ⟨5, 0⟩ ⟨.rank_6, .suits_clubs⟩).aceCount).1) ∧
    playerInit ⟨.rank_ace, .suits_clubs⟩ ⟨.rank_ace, .suits_hearts⟩ = ⟨22, 0⟩ ∧
    dealIntoHand (dealIntoHand ⟨0, 0⟩ ⟨.rank_ace, .suits_clubs⟩)
        ⟨.rank_ace, .suits_hearts⟩ = ⟨12, 1⟩ :=
  ⟨initial_deal_raw_sum.1 (fun _ => true) 0 5 0 ⟨.rank_6, .suits_clubs⟩ []
     (by decide) rfl,
   (initial_deal_raw_sum.2.2.2 ⟨.rank_ace, .suits_clubs⟩ ⟨.rank_ace, .suits_hearts⟩
     (by decide) (by decide)).1,
   (initial_deal_raw_sum.2.2.2 ⟨.rank_ace, .suits_clubs⟩ ⟨.rank_ace, .suits_hearts⟩
     (by decide) (by decide)).2⟩

/-- Every card value is between 2 and 11. -/
lemma Card.val_bounds (c : Card) : 2 ≤ c.val ∧ c.val ≤ 11 := by
  obtain ⟨r, s⟩ := c
  cases r <;> exact ⟨by norm_num [Card.val], by norm_num [Card.val]⟩

/-- Complete description of the ace-correction loop: it subtracts 10 and
decrements the ace count some number `m` of times; every step before the last
started above the limit, and if the result is still above the limit then the
ace count has run out. -/
lemma aceCorrect_run (limit : Nat) (h9 : 9 ≤ limit) :
    ∀ a s, ∃ m, m ≤ a ∧ 10 * m ≤ s ∧
      aceCorrect limit s a = (s - 10 * m, a - m) ∧
      (∀ j < m, limit < s - 10 * j) ∧
      (limit < s - 10 * m → a - m = 0) := by
  intro a
  induction a with
  | zero =>
    intro s
    exact ⟨0, Nat.le_refl 0, by omega, rfl, by omega, fun _ => rfl⟩
  | succ a ih =>
    intro s
    by_cases hls : limit < s
    · obtain ⟨m, hm, hms, heq, hgt, hlast⟩ := ih (s - 10)
      refine ⟨m + 1, by omega, by omega, ?_, ?_, ?_⟩
      · have h1 : s - 10 - 10 * m = s - 10 * (m + 1) := by omega
        have h2 : a - m = (a + 1) - (m + 1) := by omega
        simp only [aceCorrect, if_pos hls, heq, h1, h2]
      · intro j hj
        cases j with
        | zero => simpa using hls
        | succ j' =>
          have := hgt j' (by omega)
          omega
      · intro hlt
        have := hlast (by omega)
        omega
    · refine ⟨0, by omega, by omega, ?_, by omega, ?_⟩
      · simp [aceCorrect, if_neg hls]
      · intro h
        exact absurd (by omega : limit < s) hls

/-- A hit with ace correction keeps `10 * aceCount ≤ score` and strictly
increases the quantity `score - 10 * aceCount` (stated in added form to stay in
`Nat`). -/
lemma hitUpdate_phi (limit : Nat) (h9 : 9 ≤ limit) (s a : Nat) (c : Card)
    (h : 10 * a ≤ s) :
    10 * (hitUpdate limit s a c).2 ≤ (hitUpdate limit s a c).1 ∧
    s + 10 * (hitUpdate limit s a c).2 + 1 ≤ (hitUpdate limit s a c).1 + 10 * a := by
  obtain ⟨hv2, hv11⟩ := Card.val_bounds c
  obtain ⟨m, hm, hms, heq, hgt, hlast⟩ := aceCorrect_run limit h9 (aceIncr a c) (s + c.val)
  have hup : hitUpdate limit s a c = (s + c.val - 10 * m, aceIncr a c - m) := heq
  rw [hup]
  have hA : (c.val = 11 ∧ aceIncr a c = a + 1) ∨ (c.val ≠ 11 ∧ aceIncr a c = a) := by
    by_cases hace : c.val = 11 <;> simp [aceIncr, hace]
  rcases hA with ⟨hv, hA⟩ | ⟨hv, hA⟩
  · rw [hA] at hm ⊢
    rw [hv] at hms ⊢
    constructor <;> omega
  · rw [hA] at hm ⊢
    constructor <;> omega

/-- The player-turn loop never exhausts the deck when enough cards remain, and
it consumes at most `21 - (score - 10 * aceCount)` cards. -/
lemma playerturnAux_total (ds : Nat → Bool) :
    ∀ (deck : List Card) (k s a : Nat), 10 * a ≤ s →
      21 ≤ deck.length + (s - 10 * a) →
      ∃ s' a' rest, (playerturnAux ds deck k s a).1 = some (s', a', rest) ∧
        deck.length ≤ rest.length + (21 - (s - 10 * a)) := by
  intro deck
  induction deck with
  | nil =>
    intro k s a ha hlen
    have hs : ¬ s < Settings.bustLimit := by
      simp only [Settings.bustLimit]
      simp only [List.length_nil] at hlen
      omega
    exact ⟨s, a, [], by simp [playerturnAux, hs], by simp⟩
  | cons c rest ih =>
    intro k s a ha hlen
    by_cases hs : s < Settings.bustLimit
    · have h21 : s < 21 := by simpa [Settings.bustLimit] using hs
      by_cases hd : ds k = true
      · obtain ⟨hphi1, hphi2⟩ :=
          hitUpdate_phi Settings.bustLimit (by decide) s a c ha
        obtain ⟨s', a', r', heq, hb⟩ :=
          ih (k + 1) (hitUpdate Settings.bustLimit s a c).1
            (hitUpdate Settings.bustLimit s a c).2 hphi1
            (by simp only [List.length_cons] at hlen; omega)
        refine ⟨s', a', r', ?_, ?_⟩
        · simp only [playerturnAux, if_pos hs, hd, if_true]
          exact heq
        · simp only [List.length_cons]
          omega
      · refine ⟨s, a, c :: rest, ?_, Nat.le_add_right _ _⟩
        simp [playerturnAux, if_pos hs, hd]
    · exact ⟨s, a, c :: rest, by simp only [playerturnAux, if_neg hs], Nat.le_add_right _ _⟩

/-- The dealer-turn loop never exhausts the deck when enough cards remain. -/
lemma dealerTurnAux_total :
    ∀ (deck : List Card) (s a : Nat), 10 * a ≤ s →
      17 ≤ deck.length + (s - 10 * a) →
      ∃ s' a' rest, dealerTurnAux deck s a = some (s', a', rest) := by
  intro deck
  induction deck with
  | nil =>
    intro s a ha hlen
    have hs : ¬ s < Settings.dealerLimit := by
      simp only [Settings.dealerLimit]
      simp only [List.length_nil] at hlen
      omega
    exact ⟨s, a, [], by simp [dealerTurnAux, hs]⟩
  | cons c rest ih =>
    intro s a ha hlen
    by_cases hs : s < Settings.dealerLimit
    · have h17 : s < 17 := by simpa [Settings.dealerLimit] using hs
      obtain ⟨hphi1, hphi2⟩ :=
        hitUpdate_phi Settings.dealerLimit (by decide) s a c ha
      obtain ⟨s', a', r', heq⟩ :=
        ih (hitUpdate Settings.dealerLimit s a c).1
          (hitUpdate Settings.dealerLimit s a c).2 hphi1
          (by simp only [List.length_cons] at hlen; omega)
      refine ⟨s', a', r', ?_⟩
      simp only [dealerTurnAux, if_pos hs]
      exact heq
    · exact ⟨s, a, c :: rest, by simp only [dealerTurnAux, if_neg hs]⟩

/-- C4: for every shuffle outcome (any permutation of the 52 fresh-deck cards)
and every hit/stand decision stream, a complete run of `playBlackJack` never
attempts to deal from an exhausted deck: the run always produces a result
(`none` would mean the deck-exhaustion assertion fired). -/
theorem playBlackJack_no_exhaustion (deck : List Card) (ds : Nat → Bool)
    (hperm : deck.Perm newDeck.m_cards) :
    ∃ r, playBlackJack deck ds = some r := by
  have hlen : deck.length = 52 := hperm.length_eq.trans (by decide)
  match deck, hlen with
  | c0 :: c1 :: c2 :: rest, hlen =>
    have hrest : rest.length = 49 := by
      simp only [List.length_cons] at hlen
      omega
    obtain ⟨s', a', r', heq, hb⟩ :=
      playerturnAux_total ds rest 0 (c1.val + c2.val) 0 (by omega) (by omega)
    have hr' : 28 ≤ r'.length := by omega
    obtain ⟨t', b', r'', heqd⟩ :=
      dealerTurnAux_total r' c0.val 0 (by omega) (by omega)
    simp only [playBlackJack, playerturn, playerInit, heq, dealerTurn, dealerInit, heqd]
    repeat first
      | exact ⟨_, rfl⟩
      | split

/-- Witness for `playBlackJack_no_exhaustion`: the fresh deck itself with an
always-stand player. -/
theorem playBlackJack_no_exhaustion_w :
    ∃ r, playBlackJack newDeck.m_cards (fun _ => false) = some r :=
  playBlackJack_no_exhaustion newDeck.m_cards (fun _ => false) (List.Perm.refl _)

/-- C5: the player's hit update adds the dealt card's value, increments the ace
count on an ace, then runs the correction loop against 21: the loop subtracts
10 and decrements the ace count `m` times, each step starting above 21, and
stops only at or below 21 unless the aces run out; a post-hit total of 22 with
at least one soft ace corrects to 12 with the ace count decremented; after the
player's turn the bust flag is set exactly when the corrected total exceeds
`Settings.bustLimit`. -/
theorem playerturn_hit_correction :
    (∀ s a c, ∃ m, m ≤ aceIncr a c ∧ 10 * m ≤ s + Card.val c ∧
      hitUpdate Settings.bustLimit s a c = (s + Card.val c - 10 * m, aceIncr a c - m) ∧
      (∀ j < m, 21 < s + Card.val c - 10 * j) ∧
      (21 < s + Card.val c - 10 * m → aceIncr a c - m = 0)) ∧
    (∀ a, 1 ≤ a → aceCorrect Settings.bustLimit 22 a = (12, a - 1)) ∧
    (∀ ds deck k p b p' rest, playerturn ds deck k p = some (b, p', rest) →
      (b = true ↔ Settings.bustLimit < p'.score)) := by
  refine ⟨fun s a c => ?_, fun a ha => ?_, fun ds deck k p b p' rest h => ?_⟩
  · obtain ⟨m, hm, hms, heq, hgt, hlast⟩ :=
      aceCorrect_run Settings.bustLimit (by decide) (aceIncr a c) (s + c.val)
    exact ⟨m, hm, hms, heq, fun j hj => hgt j hj, hlast⟩
  · match a, ha with
    | a' + 1, _ =>
      cases a' <;> simp [aceCorrect, Settings.bustLimit]
  · simp only [playerturn] at h
    match haux : (playerturnAux ds deck k p.score p.aceCount).1 with
    | none => rw [haux] at h; exact absurd h (by simp)
    | some (s, a, rest') =>
      rw [haux] at h
      simp only [Option.some.injEq, Prod.mk.injEq] at h
      obtain ⟨hb, hp', _⟩ := h
      subst hb
      subst hp'
      simp

/-- Witness for `playerturn_hit_correction`: a hand of 22 with one soft ace
corrects to 12 with the ace count decremented to 0, and a concrete standing
turn at score 5 has its bust flag false. -/
theorem playerturn_hit_correction_w :
    aceCorrect Settings.bustLimit 22 1 = (12, 0) ∧
    (false = true ↔ Settings.bustLimit < (Player.mk 5 0).score) :=
  ⟨playerturn_hit_correction.2.1 1 (by decide),
   playerturn_hit_correction.2.2 (fun _ => false) [] 0 ⟨5, 0⟩ false ⟨5, 0⟩ []
     (by decide)⟩

/-- C6: the decision input is solicited only at totals strictly below
`Settings.bustLimit`: every score recorded in the solicitation trace of the
player-turn loop is `< 21`, and a player entering the loop at exactly 21 is
never asked and stands automatically with an unchanged hand and no bust. -/
theorem playerWantHit_only_below_21 :
    (∀ ds deck k s a t, t ∈ (playerturnAux ds deck k s a).2 →
      t < Settings.bustLimit) ∧
    (∀ ds deck k a, playerturn ds deck k ⟨Settings.bustLimit, a⟩
        = some (false, ⟨Settings.bustLimit, a⟩, deck) ∧
      (playerturnAux ds deck k Settings.bustLimit a).2 = []) := by
  constructor
  · intro ds deck
    induction deck with
    | nil =>
      intro k s a t ht
      by_cases hs : s < Settings.bustLimit
      · by_cases hd : ds k = true <;>
          simp [playerturnAux, hs, hd] at ht <;>
          exact ht ▸ hs
      · simp [playerturnAux, if_neg hs] at ht
    | cons c rest ih =>
      intro k s a t ht
      by_cases hs : s < Settings.bustLimit
      · by_cases hd : ds k = true
        · simp only [playerturnAux, if_pos hs, hd, if_true, List.mem_cons] at ht
          rcases ht with rfl | ht
          · exact hs
          · exact ih (k + 1) _ _ t ht
        · simp [playerturnAux, hs, hd] at ht
          exact ht ▸ hs
      · simp [playerturnAux, if_neg hs] at ht
  · intro ds deck k a
    have hs : ¬ Settings.bustLimit < Settings.bustLimit := lt_irrefl _
    cases deck <;>
      simp [playerturn, playerturnAux, hs]

/-- Witness for `playerWantHit_only_below_21`: with an empty deck, an
always-stand stream and a starting score of 5, the single solicitation happens
at 5, which is below the limit. -/
theorem playerWantHit_only_below_21_w :
    5 ∈ (playerturnAux (fun _ => false) [] 0 5 0).2 ∧ 5 < Settings.bustLimit :=
  ⟨by decide, playerWantHit_only_below_21.1 (fun _ => false) [] 0 5 0 5 (by decide)⟩

/-- The fresh deck's card list has no duplicates. -/
lemma newDeck_nodup : newDeck.m_cards.Nodup := by decide

/-- Shuffling a 52-card deck leaves the list of cards a permutation of the
original list. -/
lemma shuffle_perm (d : Deck) (σ : Equiv.Perm (Fin 52))
    (h : d.m_cards.length = 52) : (d.shuffle σ).m_cards.Perm d.m_cards := by
  have h1 : (d.shuffle σ).m_cards
      = List.ofFn ((fun i : Fin 52 => d.m_cards.getD i ⟨.rank_ace, .suits_clubs⟩) ∘ σ) :=
    rfl
  have h3 : List.ofFn (fun i : Fin 52 => d.m_cards.getD i ⟨.rank_ace, .suits_clubs⟩)
      = d.m_cards := by
    apply List.ext_getElem
    · simp [h]
    · intro i h1i h2i
      rw [List.getElem_ofFn]
      exact List.getD_eq_getElem _ _ (by omega)
  have h4 := Equiv.Perm.ofFn_comp_perm σ
    (fun i : Fin 52 => d.m_cards.getD i ⟨.rank_ace, .suits_clubs⟩)
  rw [h3] at h4
  rw [h1]
  exact h4

/-- Running `dealCard` `n` times from cursor position `m_nextCardIndex` on a
52-card deck, with `m_nextCardIndex + n ≤ 52`, succeeds and returns exactly the
cards at positions `m_nextCardIndex, ..., m_nextCardIndex + n - 1`, leaving the
cursor advanced by `n`. -/
lemma dealN_run :
    ∀ (n : Nat) (d : Deck), d.m_cards.length = 52 → d.m_nextCardIndex + n ≤ 52 →
      dealN d n = some ((d.m_cards.drop d.m_nextCardIndex).take n,
                        ⟨d.m_cards, d.m_nextCardIndex + n⟩) := by
  intro n
  induction n with
  | zero =>
    intro d hlen hle
    simp [dealN]
  | succ n ih =>
    intro d hlen hle
    have hne : d.m_nextCardIndex ≠ 52 := by omega
    have hlt : d.m_nextCardIndex < d.m_cards.length := by omega
    have hstep := ih ⟨d.m_cards, d.m_nextCardIndex + 1⟩ hlen
      (by show d.m_nextCardIndex + 1 + n ≤ 52; omega)
    simp only [dealN, Deck.dealCard, if_neg hne, hstep]
    rw [List.drop_eq_getElem_cons hlt, List.take_succ_cons,
      List.getD_eq_getElem _ _ hlt]
    have harith : d.m_nextCardIndex + 1 + n = d.m_nextCardIndex + (n + 1) := by omega
    rw [harith]

/-- C7: `dealCard` returns the card at the cursor and advances the cursor by
one; at cursor 52 it fails fatally (`none`) instead of returning a card; and
from a freshly shuffled deck (cursor 0), 52 successive calls succeed and return
52 pairwise-distinct cards, after which the 53rd call fails. -/
theorem dealCard_cursor_spec :
    (∀ d : Deck, d.m_nextCardIndex ≠ 52 →
      d.dealCard = some (d.m_cards.getD d.m_nextCardIndex ⟨.rank_ace, .suits_clubs⟩,
                         ⟨d.m_cards, d.m_nextCardIndex + 1⟩)) ∧
    (∀ d : Deck, d.m_nextCardIndex = 52 → d.dealCard = none) ∧
    (∀ σ : Equiv.Perm (Fin 52), ∃ cs d', dealN (newDeck.shuffle σ) 52 = some (cs, d') ∧
      cs.Nodup ∧ cs.length = 52 ∧ d'.dealCard = none) := by
  refine ⟨fun d h => by simp [Deck.dealCard, h], fun d h => by simp [Deck.dealCard, h],
    fun σ => ?_⟩
  have hlen : (newDeck.shuffle σ).m_cards.length = 52 := by
    simp [Deck.shuffle]
  have hrun := dealN_run 52 (newDeck.shuffle σ) hlen (by simp [Deck.shuffle])
  refine ⟨(newDeck.shuffle σ).m_cards, ⟨(newDeck.shuffle σ).m_cards, 52⟩, ?_, ?_, hlen,
    by simp [Deck.dealCard]⟩
  · rw [hrun]
    have hnext : (newDeck.shuffle σ).m_nextCardIndex = 0 := rfl
    rw [hnext]
    simp [List.take_of_length_le (le_of_eq hlen)]
  · exact (shuffle_perm newDeck σ (by decide)).nodup_iff.mpr newDeck_nodup

/-- Witness for `dealCard_cursor_spec`: a deal at cursor 0, the fatal deal at
cursor 52, and the 52-deal run under the identity shuffle. -/
theorem dealCard_cursor_spec_w :
    (Deck.dealCard ⟨newDeck.m_cards, 0⟩
      = some (newDeck.m_cards.getD 0 ⟨.rank_ace, .suits_clubs⟩, ⟨newDeck.m_cards, 1⟩)) ∧
    Deck.dealCard ⟨newDeck.m_cards, 52⟩ = none ∧
    ∃ cs d', dealN (newDeck.shuffle 1) 52 = some (cs, d') ∧
      cs.Nodup ∧ cs.length = 52 ∧ Deck.dealCard d' = none :=
  ⟨dealCard_cursor_spec.1 ⟨newDeck.m_cards, 0⟩ (by decide),
   dealCard_cursor_spec.2.1 ⟨newDeck.m_cards, 52⟩ rfl,
   dealCard_cursor_spec.2.2 1⟩

/-- C8: the fresh deck contains exactly 52 cards with no duplicates, one for
each rank-suit pair, with the cursor at 0; shuffling a 52-card deck keeps the
card list a permutation of what it was (the same multiset) and resets the
cursor to 0. -/
theorem Deck_canonical_multiset :
    newDeck.m_cards.length = 52 ∧ newDeck.m_cards.Nodup ∧
    (∀ r s, newDeck.m_cards.count (Card.mk r s) = 1) ∧
    newDeck.m_nextCardIndex = 0 ∧
    (∀ (d : Deck) (σ : Equiv.Perm (Fin 52)), d.m_cards.length = 52 →
      (d.shuffle σ).m_cards.Perm d.m_cards ∧ (d.shuffle σ).m_nextCardIndex = 0) := by
  refine ⟨by decide, newDeck_nodup, ?_, rfl, fun d σ h => ⟨shuffle_perm d σ h, rfl⟩⟩
  intro r s
  cases r <;> cases s <;> decide

/-- Witness for `Deck_canonical_multiset`: shuffling the fresh deck with the
identity permutation. -/
theorem Deck_canonical_multiset_w :
    (newDeck.shuffle 1).m_cards.Perm newDeck.m_cards ∧
    (newDeck.shuffle 1).m_nextCardIndex = 0 :=
  Deck_canonical_multiset.2.2.2.2 newDeck 1 (by decide)

end BlackjackTheorems

section PotionTheorems

/-- C10: `Player::buy` is atomic.  If the gold is below the potion's cost it
returns `false` and changes nothing; otherwise it returns `true`, subtracts
exactly the cost, increments exactly that potion's inventory slot, and leaves
the other slots unchanged; gold that was nonnegative stays nonnegative. -/
theorem Player_buy_atomic (p : PotionShop.Player) (t : PotionShop.PType) :
    (p.m_gold < PotionShop.costPotion t →
      (p.buy t).1 = false ∧ (p.buy t).2.m_gold = p.m_gold ∧
      ∀ t', (p.buy t).2.m_inventory t' = p.m_inventory t') ∧
    (PotionShop.costPotion t ≤ p.m_gold →
      (p.buy t).1 = true ∧
      (p.buy t).2.m_gold = p.m_gold - PotionShop.costPotion t ∧
      (p.buy t).2.m_inventory t = p.m_inventory t + 1 ∧
      ∀ t', t' ≠ t → (p.buy t).2.m_inventory t' = p.m_inventory t') ∧
    (0 ≤ p.m_gold → 0 ≤ (p.buy t).2.m_gold) := by
  by_cases h : p.m_gold < PotionShop.costPotion t
  · refine ⟨fun _ => ⟨?_, ?_, fun t' => ?_⟩, fun hc => absurd hc (not_le.mpr h), fun hg => ?_⟩
    all_goals simp [PotionShop.Player.buy, h]
    omega
  · refine ⟨fun hlt => absurd hlt h, fun _ => ⟨?_, ?_, ?_, fun t' ht' => ?_⟩, fun hg => ?_⟩
    · simp [PotionShop.Player.buy, h]
    · simp [PotionShop.Player.buy, h]
    · simp [PotionShop.Player.buy, h]
    · simp [PotionShop.Player.buy, h, ht']
    · simp only [PotionShop.Player.buy, h, if_false]
      have := not_lt.mp h
      omega

/-- Witness for `Player_buy_atomic`: a player with 5 gold is refused a speed
potion (cost 12) with nothing changed, and a player with 100 gold buys a
healing potion (cost 20) with the gold staying nonnegative. -/
theorem Player_buy_atomic_w :
    ((PotionShop.Player.buy ⟨fun _ => 0, 5⟩ .speed).1 = false ∧
     (PotionShop.Player.buy ⟨fun _ => 0, 5⟩ .speed).2.m_gold = 5 ∧
     ∀ t', (PotionShop.Player.buy ⟨fun _ => 0, 5⟩ .speed).2.m_inventory t' = 0) ∧
    ((PotionShop.Player.buy ⟨fun _ => 0, 100⟩ .healing).1 = true ∧
     (PotionShop.Player.buy ⟨fun _ => 0, 100⟩ .healing).2.m_gold
       = 100 - PotionShop.costPotion .healing ∧
     (PotionShop.Player.buy ⟨fun _ => 0, 100⟩ .healing).2.m_inventory .healing = 0 + 1 ∧
     ∀ t', t' ≠ PotionShop.PType.healing →
       (PotionShop.Player.buy ⟨fun _ => 0, 100⟩ .healing).2.m_inventory t' = 0) ∧
    0 ≤ (PotionShop.Player.buy ⟨fun _ => 0, 100⟩ .healing).2.m_gold :=
  ⟨(Player_buy_atomic ⟨fun _ => 0, 5⟩ .speed).1 (by norm_num [PotionShop.costPotion]),
   (Player_buy_atomic ⟨fun _ => 0, 100⟩ .healing).2.1
     (by norm_num [PotionShop.costPotion]),
   (Player_buy_atomic ⟨fun _ => 0, 100⟩ .healing).2.2 (by norm_num)⟩

end PotionTheorems
